import Mathlib

/-!
Shallow embedding of the Raspberry Pi autofocus control algorithm
(`src/ipa/rpi/controller/rpi/af.cpp`) and proofs about it.

Conventions:
* C++ `double` values are modelled as exact rationals (`ℚ`).
* C++ unsigned integer counters (`uint32_t`) are modelled as `ℕ`;
  where 32-bit wraparound can matter (the accumulators of `getPhase`)
  the reduction modulo `2 ^ 32` is written explicitly.
* Enumerations keep their C++ names; the runtime state of the `Af`
  class is the structure `Af`, with one field per data member that the
  embedded functions read or write.
-/

/-- Embeds `AfAlgorithm::AfMode` (declared in the af.h header; member order per spec §3). -/
inductive AfMode where
  | Manual
  | Auto
  | Continuous
deriving DecidableEq, Repr

/-- Embeds the `AfAlgorithm::AfPause` control argument. -/
inductive AfPause where
  | Immediate
  | Deferred
  | Resume
deriving DecidableEq, Repr

/-- Embeds `AfState`: the published state in `af.status`. -/
inductive AfState where
  | Idle
  | Scanning
  | Focused
  | Failed
deriving DecidableEq, Repr

/-- Modelled from the spec: the `ScanState` enumeration of af.h is not in the
repository; spec §3 lists its values in order
`{Idle, Trigger, Pdaf, Coarse, Fine, Settle}`, consistent with every ordered
comparison in af.cpp. -/
inductive ScanState where
  | Idle
  | Trigger
  | Pdaf
  | Coarse
  | Fine
  | Settle
deriving DecidableEq, Repr

/-- Numeric index of a scan state, giving the C++ enum order used by
comparisons such as `scanState_ >= ScanState::Coarse`. -/
def ScanState.idx : ScanState → ℕ
  | .Idle => 0
  | .Trigger => 1
  | .Pdaf => 2
  | .Coarse => 3
  | .Fine => 4
  | .Settle => 5

/-- Embeds `Af::RangeDependentParams` (af.cpp lines 39-44 give the defaults). -/
structure RangeDependentParams where
  focusMin : ℚ
  focusMax : ℚ
  focusDefault : ℚ
deriving DecidableEq, Repr

/-- Embeds `Af::SpeedDependentParams` (af.cpp lines 46-57 give the defaults).
The three frame counts are read as `uint32_t` (af.cpp lines 94-96). -/
structure SpeedDependentParams where
  stepCoarse : ℚ
  stepFine : ℚ
  contrastRatio : ℚ
  pdafGain : ℚ
  pdafSquelch : ℚ
  maxSlew : ℚ
  pdafFrames : ℕ
  dropoutFrames : ℕ
  stepFrames : ℕ
deriving DecidableEq, Repr

/-- Value of `AfRangeMax`: number of members of the `AfRange` enumeration
(`{Normal, Macro, Full}`, spec §3). Ranges and speeds are indexed by `ℕ`
so that out-of-range enum arguments to `setRange`/`setSpeed` can be
expressed. -/
def AfRangeMax : ℕ := 3

/-- Value of `AfSpeedMax`: number of members of `AfSpeed` (`{Normal, Fast}`). -/
def AfSpeedMax : ℕ := 2

/-- Embeds `Af::CfgParams` (af.cpp lines 59-66 give the defaults); the range and
speed tables are total functions on the index. -/
structure CfgParams where
  ranges : ℕ → RangeDependentParams
  speeds : ℕ → SpeedDependentParams
  confEpsilon : ℕ
  confThresh : ℕ
  confClip : ℕ
  skipFrames : ℕ

/-- One record of `scanData_`: `{ ftarget_, contrast, phase, conf }`
(af.cpp line 466). -/
structure ScanRecord where
  focus : ℚ
  contrast : ℚ
  phase : ℚ
  conf : ℚ
deriving DecidableEq, Repr

/-- Runtime state of the `Af` algorithm class: one field per data member
that the embedded functions touch (names as in af.cpp, without the
trailing underscore). -/
structure Af where
  range : ℕ
  speed : ℕ
  mode : AfMode
  pauseFlag : Bool
  scanState : ScanState
  initted : Bool
  ftarget : ℚ
  fsmooth : ℚ
  prevContrast : ℚ
  skipCount : ℕ
  stepCount : ℕ
  dropCount : ℕ
  scanMaxContrast : ℚ
  scanMinContrast : ℚ
  scanMaxIndex : ℕ
  scanData : List ScanRecord
  reportState : AfState
  isPdafEnabled : Bool
  lastMean : ℚ
  lastAgcStatus : Bool
  triggerWhenStable : Bool
  stableFrameCount : ℕ
deriving DecidableEq, Repr

/-- Embeds `std::clamp(v, lo, hi)` (for `lo ≤ hi`). -/
def clampQ (v lo hi : ℚ) : ℚ :=
  if v < lo then lo else if hi < v then hi else v

/-- Embeds `Af::updateLensPosition` (af.cpp lines 600-619). -/
def updateLensPosition (cfg : CfgParams) (s : Af) : Af :=
  let ft :=
    if ScanState.Pdaf.idx ≤ s.scanState.idx then
      clampQ s.ftarget (cfg.ranges s.range).focusMin (cfg.ranges s.range).focusMax
    else s.ftarget
  if s.initted then
    { s with ftarget := ft,
             fsmooth := clampQ ft (s.fsmooth - (cfg.speeds s.speed).maxSlew)
                               (s.fsmooth + (cfg.speeds s.speed).maxSlew) }
  else
    { s with ftarget := ft, fsmooth := ft, initted := true,
             skipCount := cfg.skipFrames }

/-- Embeds `Af::startProgrammedScan` (af.cpp lines 639-654). -/
def startProgrammedScan (cfg : CfgParams) (s : Af) : Af :=
  let s := { s with ftarget := (cfg.ranges s.range).focusMin }
  let s := updateLensPosition cfg s
  { s with scanState := ScanState.Coarse,
           scanMaxContrast := 0,
           scanMinContrast := (1000000000 : ℚ),
           scanMaxIndex := 0,
           scanData := [],
           stepCount := (cfg.speeds s.speed).stepFrames,
           reportState := AfState.Scanning,
           stableFrameCount := 0,
           lastMean := 0,
           triggerWhenStable := false,
           lastAgcStatus := false }

/-- Embeds `Af::goIdle` (af.cpp lines 656-661). -/
def goIdle (s : Af) : Af :=
  { s with scanState := ScanState.Idle,
           reportState := AfState.Idle,
           scanData := [] }

/-- Embeds `Af::doPDAF` (af.cpp lines 369-410). `stepCount_` and `stepFrames` are
unsigned integers (spec §3 "unsigned counts"; af.cpp lines 96 and 685), so
`stepCount_ / cfg_.speeds[speed_].stepFrames` on line 394 is C++ unsigned
integer division, embedded as `ℕ` division before the cast to `ℚ`. -/
def doPDAF (cfg : CfgParams) (phase conf : ℚ) (s : Af) : Af :=
  let sp := cfg.speeds s.speed
  let phase := phase * sp.pdafGain
  let pc : ℚ × ℕ :=
    if s.mode = AfMode.Continuous then
      let phase := phase * (conf / (conf + (cfg.confEpsilon : ℚ)))
      if |phase| < sp.pdafSquelch then
        let a := phase / sp.pdafSquelch
        (phase * (a * a), s.stepCount)
      else (phase, s.stepCount)
    else
      if sp.stepFrames ≤ s.stepCount then
        if |phase| < sp.pdafSquelch then (phase, sp.stepFrames)
        else (phase, s.stepCount)
      else
        (phase * ((s.stepCount / sp.stepFrames : ℕ) : ℚ), s.stepCount)
  let phase := pc.1
  let pr : ℚ × AfState :=
    if phase < -sp.maxSlew then
      (-sp.maxSlew,
       if s.ftarget ≤ (cfg.ranges s.range).focusMin then AfState.Failed
       else AfState.Scanning)
    else if sp.maxSlew < phase then
      (sp.maxSlew,
       if (cfg.ranges s.range).focusMax ≤ s.ftarget then AfState.Failed
       else AfState.Scanning)
    else (phase, AfState.Focused)
  { s with stepCount := pc.2,
           reportState := pr.2,
           ftarget := s.fsmooth + pr.1 }

/-- Embeds `Af::earlyTerminationByPhase` (af.cpp lines 412-435); returns the C++
return value paired with the (possibly updated) `ftarget_`. -/
def earlyTerminationByPhase (cfg : CfgParams) (phase : ℚ) (s : Af) : Bool × ℚ :=
  match s.scanData.getLast? with
  | some lastRec =>
    if (cfg.confEpsilon : ℚ) ≤ lastRec.conf then
      let oldFocus := lastRec.focus
      let oldPhase := lastRec.phase
      if 0 < (s.ftarget - oldFocus) * (phase - oldPhase) then
        let param := phase / (phase - oldPhase)
        if -3 ≤ param ∧ param ≤ 7/2 then
          (true, s.ftarget + param * (oldFocus - s.ftarget))
        else (false, s.ftarget)
      else (false, s.ftarget)
    else (false, s.ftarget)
  | none => (false, s.ftarget)

/-- Default-initialised `ScanRecord`, used only as the padding value of
total list indexing. -/
def recDfl : ScanRecord := ⟨0, 0, 0, 0⟩

/-- Embeds `Af::findPeak` (af.cpp lines 437-455); `0.3125 = 5/16` and `1.6 = 8/5`.
Total version: out-of-range indices read the padding record. -/
def findPeak (d : List ScanRecord) (i : ℕ) : ℚ :=
  let f := (d.getD i recDfl).focus
  if 0 < i ∧ i + 1 < d.length then
    let dropLo := (d.getD i recDfl).contrast - (d.getD (i - 1) recDfl).contrast
    let dropHi := (d.getD i recDfl).contrast - (d.getD (i + 1) recDfl).contrast
    if 0 ≤ dropLo ∧ dropLo < dropHi then
      let param := 5/16 * (1 - dropLo / dropHi) * (8/5 - dropLo / dropHi)
      f + param * ((d.getD (i - 1) recDfl).focus - f)
    else if 0 ≤ dropHi ∧ dropHi < dropLo then
      let param := 5/16 * (1 - dropHi / dropLo) * (8/5 - dropHi / dropLo)
      f + param * ((d.getD (i + 1) recDfl).focus - f)
    else f
  else f

/-- Embeds `Af::findPeak` with every `scanData_` access carrying an in-bounds
proof: the neighbour reads at `i - 1` and `i + 1` are possible only under
the guard `i > 0 && i + 1 < scanData_.size()` of af.cpp line 441. -/
def findPeakChecked (d : List ScanRecord) (i : ℕ) (h : i < d.length) : ℚ :=
  let f := (d.get ⟨i, h⟩).focus
  if hg : 0 < i ∧ i + 1 < d.length then
    let dropLo := (d.get ⟨i, h⟩).contrast -
                  (d.get ⟨i - 1, by omega⟩).contrast
    let dropHi := (d.get ⟨i, h⟩).contrast -
                  (d.get ⟨i + 1, hg.2⟩).contrast
    if 0 ≤ dropLo ∧ dropLo < dropHi then
      let param := 5/16 * (1 - dropLo / dropHi) * (8/5 - dropLo / dropHi)
      f + param * ((d.get ⟨i - 1, by omega⟩).focus - f)
    else if 0 ≤ dropHi ∧ dropHi < dropLo then
      let param := 5/16 * (1 - dropHi / dropLo) * (8/5 - dropHi / dropLo)
      f + param * ((d.get ⟨i + 1, hg.2⟩).focus - f)
    else f
  else f

/-- Embeds `Af::doScan` (af.cpp lines 457-495). -/
def doScan (cfg : CfgParams) (contrast phase conf : ℚ) (s : Af) : Af :=
  let mx : ℚ × ℕ :=
    if s.scanData = [] ∨ s.scanMaxContrast < contrast then
      (contrast, s.scanData.length)
    else (s.scanMaxContrast, s.scanMaxIndex)
  let smin := if contrast < s.scanMinContrast then contrast else s.scanMinContrast
  let s := { s with scanMaxContrast := mx.1,
                    scanMaxIndex := mx.2,
                    scanMinContrast := smin,
                    scanData := s.scanData ++ [(⟨s.ftarget, contrast, phase, conf⟩ : ScanRecord)] }
  let s :=
    if s.scanState = ScanState.Coarse then
      if (cfg.ranges s.range).focusMax ≤ s.ftarget ∨
         contrast < (cfg.speeds s.speed).contrastRatio * s.scanMaxContrast then
        { s with ftarget := min s.ftarget
                   (findPeak s.scanData s.scanMaxIndex + 2 * (cfg.speeds s.speed).stepFine),
                 scanState := ScanState.Fine,
                 scanData := [] }
      else { s with ftarget := s.ftarget + (cfg.speeds s.speed).stepCoarse }
    else
      if s.ftarget ≤ (cfg.ranges s.range).focusMin ∨ 5 ≤ s.scanData.length ∨
         contrast < (cfg.speeds s.speed).contrastRatio * s.scanMaxContrast then
        { s with ftarget := findPeak s.scanData s.scanMaxIndex,
                 scanState := ScanState.Settle }
      else { s with ftarget := s.ftarget - (cfg.speeds s.speed).stepFine }
  { s with stepCount := if s.ftarget = s.fsmooth then 0 else (cfg.speeds s.speed).stepFrames }

/-- Per-frame external inputs of `Af::doAF` that come from metadata and
statistics (af.cpp lines 522-550): the AGC lock flag when
`agc.prepare_status` is present, and the mean of the green-channel zone
averages computed by `generate_stats` from the AWB statistics. -/
structure DoAfEnv where
  agcLocked : Option Bool
  mean : ℚ

/-- Embeds `Af::doAF` (af.cpp lines 513-598). -/
def doAF (cfg : CfgParams) (env : DoAfEnv) (contrast phase conf : ℚ) (s : Af) : Af :=
  if 0 < s.skipCount then { s with skipCount := s.skipCount - 1 }
  else if s.mode = AfMode.Continuous ∧ s.isPdafEnabled = false ∧
          s.scanState = ScanState.Idle then
    let locked := (env.agcLocked).getD false
    let s :=
      if locked ∧ s.lastMean ≠ 0 then
        let meanDiff := |env.mean - s.lastMean|
        let s := if 1000 < meanDiff then { s with triggerWhenStable := true } else s
        if s.triggerWhenStable ∧ meanDiff < 400 then startProgrammedScan cfg s
        else if s.lastAgcStatus = false ∧ locked then startProgrammedScan cfg s
        else s
      else s
    { s with lastAgcStatus := locked, lastMean := env.mean }
  else if s.scanState = ScanState.Pdaf then
    if (if s.dropCount ≠ 0 then (1 : ℚ) else 1/4) * (cfg.confEpsilon : ℚ) < conf then
      let s := doPDAF cfg phase conf s
      let s :=
        if 0 < s.stepCount then { s with stepCount := s.stepCount - 1 }
        else if s.mode ≠ AfMode.Continuous then { s with scanState := ScanState.Idle }
        else s
      { s with dropCount := 0 }
    else
      let s := { s with dropCount := s.dropCount + 1 }
      if s.dropCount = (cfg.speeds s.speed).dropoutFrames then startProgrammedScan cfg s
      else s
  else if ScanState.Coarse.idx ≤ s.scanState.idx ∧ s.fsmooth = s.ftarget then
    if 0 < s.stepCount then { s with stepCount := s.stepCount - 1 }
    else if s.scanState = ScanState.Settle then
      let rep :=
        if (cfg.speeds s.speed).contrastRatio * s.scanMaxContrast ≤ s.prevContrast ∧
           s.scanMinContrast ≤ (cfg.speeds s.speed).contrastRatio * s.scanMaxContrast
        then AfState.Focused else AfState.Failed
      let ss :=
        if s.mode = AfMode.Continuous ∧ s.pauseFlag = false ∧
           0 < (cfg.speeds s.speed).dropoutFrames ∧ s.isPdafEnabled
        then ScanState.Pdaf else ScanState.Idle
      { s with reportState := rep, scanState := ss, scanData := [], lastMean := 0 }
    else
      let et := earlyTerminationByPhase cfg phase s
      if (cfg.confEpsilon : ℚ) ≤ conf ∧ et.1 then
        { s with ftarget := et.2,
                 scanState := ScanState.Settle,
                 stepCount := if s.mode = AfMode.Continuous then 0
                              else (cfg.speeds s.speed).stepFrames }
      else doScan cfg contrast phase conf s
  else s

/-- Embeds `Af::pause` (af.cpp lines 832-846). -/
def pause (p : AfPause) (s : Af) : Af :=
  if s.mode = AfMode.Continuous then
    if p = AfPause.Resume ∧ s.pauseFlag then
      let s := { s with pauseFlag := false }
      if s.scanState.idx < ScanState.Coarse.idx then { s with scanState := ScanState.Trigger }
      else s
    else if p ≠ AfPause.Resume ∧ s.pauseFlag = false then
      let s := { s with pauseFlag := true }
      if p = AfPause.Immediate ∨ s.scanState.idx < ScanState.Coarse.idx then goIdle s
      else s
    else s
  else s

/-- Embeds `Af::setRange` (af.cpp lines 730-735); the argument is the numeric
value of the `AfRange` enumerator. -/
def setRange (r : ℕ) (s : Af) : Af :=
  if r < AfRangeMax then { s with range := r } else s

/-- Embeds `Af::setSpeed` (af.cpp lines 737-746); the argument is the numeric
value of the `AfSpeed` enumerator. -/
def setSpeed (cfg : CfgParams) (v : ℕ) (s : Af) : Af :=
  if v < AfSpeedMax then
    let s :=
      if s.scanState = ScanState.Pdaf ∧
         (cfg.speeds s.speed).pdafFrames < (cfg.speeds v).pdafFrames then
        { s with stepCount := s.stepCount +
                   ((cfg.speeds v).pdafFrames - (cfg.speeds s.speed).pdafFrames) }
      else s
    { s with speed := v }
  else s

/-- The cell-setting loop body of the central-window fallback: each visited
flat index is assigned weight 1 (`wgts->w[r * cols + c] = 1`, af.cpp
line 301). -/
def setCells (w : List ℕ) (cells : List ℕ) : List ℕ :=
  cells.foldl (fun w i => w.set i 1) w

/-- Flat indices `r * cols + c` visited by the nested fallback loops of
`Af::computeWeights` (af.cpp lines 299-300):
`r` ranges over `[rows / 3, rows - rows / 3)` and `c` over
`[cols / 4, cols - cols / 4)`. -/
def fallbackCells (rows cols : ℕ) : List ℕ :=
  (List.range' (rows / 3) ((rows - rows / 3) - rows / 3)).flatMap (fun r =>
    (List.range' (cols / 4) ((cols - cols / 4) - cols / 4)).map (fun c => r * cols + c))

/-- The central-window fallback branch of `Af::computeWeights`
(af.cpp lines 297-306), entered when the accumulated window weight sum is
zero: starting from the all-zero `rows * cols` grid, set each visited cell
to 1; the returned sum is incremented once per visited cell. -/
def computeWeightsFallback (rows cols : ℕ) : List ℕ × ℕ :=
  let cells := fallbackCells rows cols
  (setCells (List.replicate (rows * cols) 0) cells, cells.length)

/-- The constant `2 ^ 32`, the modulus of the `uint32_t` arithmetic in `Af::getPhase`. -/
def U32 : ℕ := 4294967296

/-- One PDAF cell: signed `phase` and unsigned `conf`. -/
structure PdafData where
  phase : ℤ
  conf : ℕ
deriving DecidableEq, Repr

/-- Embeds `uint32_t` subtraction (wraparound), for operands below `2 ^ 32`. -/
def sub32 (a b : ℕ) : ℕ := (a + U32 - b) % U32

/-- One iteration of the accumulation loop of `Af::getPhase`
(af.cpp lines 325-339), acting on the pair
`(sumWc : uint32_t, sumWcp : int64_t)`; the entry pairs the cell's weight
`phaseWeights_.w[i]` with its `PdafData`. `confThresh >> 2` is
`confThresh / 4`. -/
def getPhaseStep (cfg : CfgParams) (acc : ℕ × ℤ) (e : ℕ × PdafData) : ℕ × ℤ :=
  if e.1 ≠ 0 then
    if cfg.confThresh ≤ e.2.conf then
      let c := if cfg.confClip < e.2.conf then cfg.confClip else e.2.conf
      let c := sub32 c (cfg.confThresh / 4)
      let sumWc := (acc.1 + e.1 * c % U32) % U32
      let c := sub32 c (cfg.confThresh / 4)
      (sumWc, acc.2 + ((e.1 * c % U32 : ℕ) : ℤ) * e.2.phase)
    else acc
  else acc

/-- Embeds `Af::getPhase` (af.cpp lines 314-350), with the region grid and its
weights abstracted as a list of (weight, data) pairs and `gridSum` standing
for `phaseWeights_.sum`; returns the C++ return value together with the
output `phase` and `conf`. -/
def getPhase (cfg : CfgParams) (gridSum : ℕ) (entries : List (ℕ × PdafData)) :
    Bool × ℚ × ℚ :=
  let acc := entries.foldl (getPhaseStep cfg) (0, 0)
  if 0 < gridSum ∧ gridSum ≤ acc.1 then
    (true, (acc.2 : ℚ) / (acc.1 : ℚ), (acc.1 : ℚ) / (gridSum : ℚ))
  else (false, 0, 0)

/-- The reduced confidence `c1 = min(conf, confClip) − confThresh/4` in the
words of the spec (§4.3). -/
def specC1 (cfg : CfgParams) (conf : ℕ) : ℕ :=
  min conf cfg.confClip - cfg.confThresh / 4

/-- The reduced confidence `c2 = c1 − confThresh/4` in the words of the
spec (§4.3). -/
def specC2 (cfg : CfgParams) (conf : ℕ) : ℕ :=
  specC1 cfg conf - cfg.confThresh / 4

/-- A cell participates in the fusion when its weight is non-zero and its
confidence reaches `confThresh`. -/
def pdafQualifies (cfg : CfgParams) (e : ℕ × PdafData) : Bool :=
  decide (e.1 ≠ 0 ∧ cfg.confThresh ≤ e.2.conf)

/-- The exact (unbounded) accumulated `sumWc = Σ w·c1` of the spec. -/
def specSumWc (cfg : CfgParams) (entries : List (ℕ × PdafData)) : ℕ :=
  ((entries.filter (pdafQualifies cfg)).map (fun e => e.1 * specC1 cfg e.2.conf)).sum

/-- The exact (unbounded) accumulated `sumWcp = Σ w·c2·phase` of the spec. -/
def specSumWcp (cfg : CfgParams) (entries : List (ℕ × PdafData)) : ℤ :=
  ((entries.filter (pdafQualifies cfg)).map
    (fun e => ((e.1 * specC2 cfg e.2.conf : ℕ) : ℤ) * e.2.phase)).sum

/-! ### Concrete fixtures used to instantiate the theorems -/

/-- A configuration holding the default tuning values of af.cpp
(lines 39-66): `stepCoarse = 1`, `stepFine = 0.25`, `contrastRatio = 0.75`,
`pdafGain = -0.02`, `pdafSquelch = 0.125`, `maxSlew = 2`,
`pdafFrames = 20`, `dropoutFrames = 6`, `stepFrames = 4`,
`confEpsilon = 8`, `confThresh = 16`, `confClip = 512`, `skipFrames = 5`. -/
def cfgDflt : CfgParams :=
  { ranges := fun _ => ⟨0, 12, 1⟩,
    speeds := fun _ => ⟨1, 1/4, 3/4, -1/50, 1/8, 2, 20, 6, 4⟩,
    confEpsilon := 8, confThresh := 16, confClip := 512, skipFrames := 5 }

/-- A baseline runtime state. -/
def stBase : Af :=
  { range := 0, speed := 0, mode := AfMode.Auto, pauseFlag := false,
    scanState := ScanState.Idle, initted := true, ftarget := 1, fsmooth := 1,
    prevContrast := 0, skipCount := 0, stepCount := 0, dropCount := 0,
    scanMaxContrast := 0, scanMinContrast := 1000000000, scanMaxIndex := 0,
    scanData := [], reportState := AfState.Idle, isPdafEnabled := false,
    lastMean := 0, lastAgcStatus := false, triggerWhenStable := false,
    stableFrameCount := 0 }

/-! ### C2: slew-rate bound of updateLensPosition -/

/-- Clamping into a radius-`m` interval moves the centre by at most `m`. -/
theorem clampQ_dist_le (v x m : ℚ) (hm : 0 ≤ m) :
    |clampQ v (x - m) (x + m) - x| ≤ m := by
  unfold clampQ
  split_ifs <;> rw [abs_le] <;> constructor <;> linarith

/-- C2: whenever `initted_` holds on entry to `Af::updateLensPosition`
(and the active `maxSlew` is non-negative, spec invariant §3.1), the new
`fsmooth_` differs from the old one by at most `maxSlew`. -/
theorem updateLensPosition_slew_bound (cfg : CfgParams) (s : Af)
    (hinit : s.initted = true)
    (hslew : 0 ≤ (cfg.speeds s.speed).maxSlew) :
    |(updateLensPosition cfg s).fsmooth - s.fsmooth| ≤
      (cfg.speeds s.speed).maxSlew := by
  unfold updateLensPosition
  rw [hinit]
  simp only [if_true]
  exact clampQ_dist_le _ _ _ hslew

/-- Witness for C2 at a concrete initted state with `maxSlew = 2`. -/
theorem updateLensPosition_slew_bound_witness :
    |(updateLensPosition cfgDflt { stBase with ftarget := 10 }).fsmooth -
      { stBase with ftarget := 10 : Af }.fsmooth| ≤
      (cfgDflt.speeds { stBase with ftarget := 10 : Af }.speed).maxSlew :=
  updateLensPosition_slew_bound cfgDflt { stBase with ftarget := 10 }
    (by decide) (by decide)

/-! ### C10: out-of-range setRange / setSpeed arguments -/

/-- C10: `Af::setRange` with an argument at or beyond `AfRangeMax`, and
`Af::setSpeed` with an argument at or beyond `AfSpeedMax`, leave the whole
state unchanged. -/
theorem setRange_setSpeed_out_of_range (cfg : CfgParams) (s : Af) (r v : ℕ)
    (hr : AfRangeMax ≤ r) (hv : AfSpeedMax ≤ v) :
    setRange r s = s ∧ setSpeed cfg v s = s := by
  constructor
  · unfold setRange
    rw [if_neg]
    omega
  · unfold setSpeed
    rw [if_neg]
    omega

/-- Witness for C10 at `r = AfRangeMax` and `v = 99`. -/
theorem setRange_setSpeed_out_of_range_witness :
    setRange 3 stBase = stBase ∧ setSpeed cfgDflt 99 stBase = stBase :=
  setRange_setSpeed_out_of_range cfgDflt stBase 3 99 (by decide) (by decide)

/-! ### C7: pause semantics -/

/-- A Continuous-mode state that is already paused (flag set by an earlier
deferred pause) while a coarse scan is still in flight. -/
def stPausedScan : Af :=
  { stBase with mode := AfMode.Continuous, pauseFlag := true,
                scanState := ScanState.Coarse }

/-- C7 counterexample: in Continuous mode with the pause flag already set
and a coarse scan in flight, `pause(Immediate)` is a no-op — `scanState`
stays `Coarse` instead of transitioning to `Idle` as claimed. -/
theorem pause_immediate_already_paused_counterexample :
    stPausedScan.mode = AfMode.Continuous ∧
    pause AfPause.Immediate stPausedScan = stPausedScan ∧
    (pause AfPause.Immediate stPausedScan).scanState ≠ ScanState.Idle := by
  decide

/-- C7 (amended): `pause(p)` is a no-op unless `mode = Continuous`. In
Continuous mode: with the flag clear, `Immediate` sets the flag and goes
`Idle`, and `Deferred` sets the flag, going `Idle` only when no scan is in
flight (`scanState < Coarse`) and otherwise leaving `scanState` unchanged;
with the flag already set, `Immediate` and `Deferred` are no-ops. `Resume`
with the flag set clears it and sets `scanState` to `Trigger` exactly when
`scanState < Coarse`; `Resume` with the flag clear is a no-op. -/
theorem pause_spec (p : AfPause) (s : Af) :
    (s.mode ≠ AfMode.Continuous → pause p s = s) ∧
    (s.mode = AfMode.Continuous →
      (s.pauseFlag = false → p ≠ AfPause.Resume →
        (pause p s).pauseFlag = true ∧
        (p = AfPause.Immediate → (pause p s).scanState = ScanState.Idle) ∧
        (p = AfPause.Deferred →
          (ScanState.Coarse.idx ≤ s.scanState.idx →
            (pause p s).scanState = s.scanState) ∧
          (s.scanState.idx < ScanState.Coarse.idx →
            (pause p s).scanState = ScanState.Idle))) ∧
      (s.pauseFlag = true → p ≠ AfPause.Resume → pause p s = s) ∧
      (p = AfPause.Resume → s.pauseFlag = true →
        (pause p s).pauseFlag = false ∧
        (s.scanState.idx < ScanState.Coarse.idx →
          (pause p s).scanState = ScanState.Trigger) ∧
        (ScanState.Coarse.idx ≤ s.scanState.idx →
          (pause p s).scanState = s.scanState)) ∧
      (p = AfPause.Resume → s.pauseFlag = false → pause p s = s)) := by
  unfold pause goIdle
  cases p <;> cases hflag : s.pauseFlag <;> cases hss : s.scanState <;>
    refine ⟨fun hm => by simp [hm], fun hm => ?_⟩ <;>
    simp_all [ScanState.idx]

/-- Witness for C7 (amended): a deferred pause during a coarse scan sets
the flag but leaves the scan state alone. -/
theorem pause_spec_witness :
    (pause AfPause.Deferred { stPausedScan with pauseFlag := false }).pauseFlag = true ∧
    (pause AfPause.Deferred { stPausedScan with pauseFlag := false }).scanState =
      ScanState.Coarse := by
  have h := (pause_spec AfPause.Deferred { stPausedScan with pauseFlag := false }).2
    (by decide) |>.1 (by decide) (by decide)
  exact ⟨h.1, (h.2.2 (by decide)).1 (by decide)⟩

/-! ### C6: early termination by phase -/

/-- C6: `Af::earlyTerminationByPhase(phase)` returns true exactly when
`scanData_` is non-empty, the last record's confidence reaches
`confEpsilon`, `(ftarget − oldFocus)·(phase − oldPhase) > 0`, and the
extrapolation parameter `param = phase/(phase − oldPhase)` lies in
`[-3, 3.5]`; in that case the new `ftarget` is
`ftarget + param·(oldFocus − ftarget)`, and otherwise `ftarget` is left
unchanged. -/
theorem earlyTerminationByPhase_spec (cfg : CfgParams) (phase : ℚ) (s : Af) :
    ((earlyTerminationByPhase cfg phase s).1 = true ↔
      ∃ lastRec, s.scanData.getLast? = some lastRec ∧
        (cfg.confEpsilon : ℚ) ≤ lastRec.conf ∧
        0 < (s.ftarget - lastRec.focus) * (phase - lastRec.phase) ∧
        -3 ≤ phase / (phase - lastRec.phase) ∧
        phase / (phase - lastRec.phase) ≤ 7/2) ∧
    (∀ lastRec, s.scanData.getLast? = some lastRec →
      (earlyTerminationByPhase cfg phase s).1 = true →
      (earlyTerminationByPhase cfg phase s).2 =
        s.ftarget + (phase / (phase - lastRec.phase)) *
          (lastRec.focus - s.ftarget)) ∧
    ((earlyTerminationByPhase cfg phase s).1 = false →
      (earlyTerminationByPhase cfg phase s).2 = s.ftarget) := by
  unfold earlyTerminationByPhase
  cases hlast : s.scanData.getLast? with
  | none => simp
  | some lastRec =>
    simp only [Option.some.injEq]
    split_ifs with h1 h2 h3 <;> simp_all

/-- Witness for C6: with an empty `scanData_` the function reports false
and leaves `ftarget` unchanged. -/
theorem earlyTerminationByPhase_spec_witness :
    (earlyTerminationByPhase cfgDflt 1 stBase).2 = stBase.ftarget :=
  (earlyTerminationByPhase_spec cfgDflt 1 stBase).2.2 (by decide)

/-! ### C8: findPeak on flat and symmetric data -/

/-- C8: `Af::findPeak` is the identity on the recorded focus in the flat
case (all contrast values equal, any valid index) and in the symmetric
case (interior samples `(f−s, c−Δ), (f, c), (f+s, c−Δ)` with `Δ ≥ 0`). -/
theorem findPeak_flat_symmetric :
    (∀ (d : List ScanRecord) (c0 : ℚ), (∀ r ∈ d, r.contrast = c0) →
      ∀ i (h : i < d.length), findPeak d i = (d.get ⟨i, h⟩).focus) ∧
    (∀ (f s c Δ p1 p2 p3 q1 q2 q3 : ℚ), 0 ≤ Δ →
      findPeak [⟨f - s, c - Δ, p1, q1⟩, ⟨f, c, p2, q2⟩,
                ⟨f + s, c - Δ, p3, q3⟩] 1 = f) := by
  constructor
  · intro d c0 hflat i h
    unfold findPeak
    by_cases hg : 0 < i ∧ i + 1 < d.length
    · have hi : d.getD i recDfl = d.get ⟨i, h⟩ := List.getD_eq_get d recDfl h
      have hlo : i - 1 < d.length := by omega
      have hhi : i + 1 < d.length := hg.2
      have hci : (d.get ⟨i, h⟩).contrast = c0 := hflat _ (d.get_mem _ _)
      have hcl : (d.get ⟨i - 1, hlo⟩).contrast = c0 := hflat _ (d.get_mem _ _)
      have hch : (d.get ⟨i + 1, hhi⟩).contrast = c0 := hflat _ (d.get_mem _ _)
      simp only [hg, if_true, hi, List.getD_eq_get d recDfl hlo,
                 List.getD_eq_get d recDfl hhi, hci, hcl, hch]
      norm_num
    · simp only [hg, if_false, List.getD_eq_get d recDfl h]
  · intro f s c Δ p1 p2 p3 q1 q2 q3 hΔ
    unfold findPeak
    norm_num [List.getD]

/-- Witness for C8 at concrete flat and symmetric scan data. -/
theorem findPeak_flat_symmetric_witness :
    findPeak [⟨1, 5, 0, 0⟩, ⟨2, 5, 0, 0⟩] 0 = 1 ∧
    findPeak [⟨2, 7, 0, 0⟩, ⟨3, 9, 0, 0⟩, ⟨4, 7, 0, 0⟩] 1 = 3 := by
  constructor
  · exact findPeak_flat_symmetric.1 [⟨1, 5, 0, 0⟩, ⟨2, 5, 0, 0⟩] 5
      (by decide) 0 (by decide)
  · have h := findPeak_flat_symmetric.2 3 1 9 2 0 0 0 0 0 0 (by norm_num)
    norm_num at h
    exact h

/-! ### C5: the Settle verdict of doAF -/

/-- C5: when `Af::doAF` runs in the `Settle` state with
`fsmooth_ == ftarget_`, `skipCount_ == 0` and `stepCount_ == 0`, it sets
`reportState_ = Focused` exactly when both
`prevContrast_ ≥ contrastRatio · scanMaxContrast_` and
`scanMinContrast_ ≤ contrastRatio · scanMaxContrast_` hold, and
`reportState_ = Failed` in every other case of that step. -/
theorem doAF_settle_verdict (cfg : CfgParams) (env : DoAfEnv)
    (contrast phase conf : ℚ) (s : Af)
    (hskip : s.skipCount = 0) (hstate : s.scanState = ScanState.Settle)
    (hdwell : s.fsmooth = s.ftarget) (hstep : s.stepCount = 0) :
    ((doAF cfg env contrast phase conf s).reportState = AfState.Focused ↔
      ((cfg.speeds s.speed).contrastRatio * s.scanMaxContrast ≤ s.prevContrast ∧
       s.scanMinContrast ≤ (cfg.speeds s.speed).contrastRatio * s.scanMaxContrast)) ∧
    ((doAF cfg env contrast phase conf s).reportState = AfState.Failed ↔
      ¬((cfg.speeds s.speed).contrastRatio * s.scanMaxContrast ≤ s.prevContrast ∧
        s.scanMinContrast ≤ (cfg.speeds s.speed).contrastRatio * s.scanMaxContrast)) := by
  unfold doAF
  simp only [hskip, hstate, hdwell, hstep, lt_irrefl, if_false]
  norm_num [ScanState.idx]
  split_ifs with hP <;> simp_all

/-- A concrete `Settle` state observing a genuine contrast peak. -/
def stSettle : Af :=
  { stBase with scanState := ScanState.Settle, prevContrast := 9,
                scanMaxContrast := 10, scanMinContrast := 2 }

/-- Witness for C5: at `stSettle` both peak conditions hold and the
verdict is `Focused`. -/
theorem doAF_settle_verdict_witness :
    (doAF cfgDflt ⟨none, 0⟩ 0 0 0 stSettle).reportState = AfState.Focused :=
  (doAF_settle_verdict cfgDflt ⟨none, 0⟩ 0 0 0 stSettle (by decide) (by decide)
    (by decide) (by decide)).1.mpr (by norm_num [cfgDflt, stSettle, stBase])

/-! ### C1: the triggered-auto ramp of doPDAF -/

/-- A triggered-auto state mid-way through the step sequence:
`stepCount = 1 < stepFrames = 4`. -/
def stAutoRamp : Af := { stBase with stepCount := 1 }

/-- C1 counterexample: with `stepCount = 1`, `stepFrames = 4` and raw
phase `-50` (gain-scaled phase `1`, outside the squelch band), the unsigned
integer quotient `1 / 4 = 0` zeroes the correction: `ftarget` ends at
`fsmooth`, while the claimed proportional correction
`(gain-scaled phase) · stepCount / stepFrames = 1/4` is non-zero. -/
theorem doPDAF_ramp_counterexample :
    stAutoRamp.mode = AfMode.Auto ∧
    stAutoRamp.stepCount = 1 ∧
    (cfgDflt.speeds stAutoRamp.speed).stepFrames = 4 ∧
    (doPDAF cfgDflt (-50) 100 stAutoRamp).ftarget - stAutoRamp.fsmooth = 0 ∧
    ((-50 : ℚ) * (cfgDflt.speeds stAutoRamp.speed).pdafGain) * ((1 : ℚ) / 4) = 1/4 := by
  refine ⟨rfl, rfl, rfl, ?_, by norm_num [cfgDflt]⟩
  norm_num [doPDAF, cfgDflt, stAutoRamp, stBase]
  rw [if_neg (show ¬(AfMode.Auto = AfMode.Continuous) by decide)]
  norm_num

/-- C1 (amended): in the triggered-auto branch of `Af::doPDAF`
(`mode = Auto`), when `stepCount ≥ stepFrames` and the gain-scaled phase is
inside the squelch band, `stepCount` is latched to `stepFrames`; otherwise
(`stepCount < stepFrames`) the gain-scaled phase is multiplied by the
unsigned integer quotient `stepCount / stepFrames`, which truncates to 0,
so the applied correction is 0 and `ftarget` is set to `fsmooth` (for a
non-negative `maxSlew`), with `stepCount` unchanged. -/
theorem doPDAF_auto_spec (cfg : CfgParams) (phase conf : ℚ) (s : Af)
    (hmode : s.mode = AfMode.Auto) :
    ((cfg.speeds s.speed).stepFrames ≤ s.stepCount →
      |phase * (cfg.speeds s.speed).pdafGain| < (cfg.speeds s.speed).pdafSquelch →
      (doPDAF cfg phase conf s).stepCount = (cfg.speeds s.speed).stepFrames) ∧
    (s.stepCount < (cfg.speeds s.speed).stepFrames →
      (doPDAF cfg phase conf s).stepCount = s.stepCount ∧
      (0 ≤ (cfg.speeds s.speed).maxSlew →
        (doPDAF cfg phase conf s).ftarget = s.fsmooth)) := by
  simp only [doPDAF, hmode]
  rw [if_neg (show ¬(AfMode.Auto = AfMode.Continuous) by decide)]
  constructor
  · intro h1 h2
    rw [if_pos h1, if_pos h2]
  · intro h1
    have hns : ¬((cfg.speeds s.speed).stepFrames ≤ s.stepCount) := by omega
    have hz : s.stepCount / (cfg.speeds s.speed).stepFrames = 0 := Nat.div_eq_of_lt h1
    rw [if_neg hns, hz]
    constructor
    · rfl
    · intro hm
      simp only [Nat.cast_zero, mul_zero]
      rw [if_neg (show ¬((0 : ℚ) < -(cfg.speeds s.speed).maxSlew) by intro hc; linarith),
          if_neg (show ¬((cfg.speeds s.speed).maxSlew < (0 : ℚ)) by intro hc; linarith)]
      simp

/-- Witness for C1 (amended) at `stepCount = 1 < 4 = stepFrames`. -/
theorem doPDAF_auto_spec_witness :
    (doPDAF cfgDflt (-50) 100 stAutoRamp).stepCount = stAutoRamp.stepCount ∧
    (doPDAF cfgDflt (-50) 100 stAutoRamp).ftarget = stAutoRamp.fsmooth := by
  have h := (doPDAF_auto_spec cfgDflt (-50) 100 stAutoRamp (by decide)).2 (by decide)
  exact ⟨h.1, h.2 (by norm_num [cfgDflt])⟩

/-! ### C3: the central-window fallback of computeWeights -/

/-- The loop `setCells` preserves the grid size. -/
theorem setCells_length (cells : List ℕ) (w : List ℕ) :
    (setCells w cells).length = w.length := by
  induction cells generalizing w with
  | nil => rfl
  | cons a t ih =>
    have hstep : setCells w (a :: t) = setCells (w.set a 1) t := rfl
    rw [hstep, ih (w.set a 1)]
    simp

/-- A cell not visited by the loop keeps its previous value. -/
theorem setCells_getD_not_mem (cells : List ℕ) (w : List ℕ) (i : ℕ)
    (h : i ∉ cells) :
    (setCells w cells).getD i 0 = w.getD i 0 := by
  induction cells generalizing w with
  | nil => rfl
  | cons a t ih =>
    have hstep : setCells w (a :: t) = setCells (w.set a 1) t := rfl
    rw [hstep, ih (w.set a 1) (fun hm => h (List.mem_cons_of_mem a hm))]
    have hne : a ≠ i := fun he => h (he ▸ List.mem_cons_self a t)
    simp [List.getD_eq_getElem?_getD, List.getElem?_set_ne hne]

/-- Every visited in-range cell ends at weight 1. -/
theorem setCells_getD_mem (cells : List ℕ) (w : List ℕ) (i : ℕ)
    (h : i ∈ cells) (hlen : i < w.length) :
    (setCells w cells).getD i 0 = 1 := by
  induction cells generalizing w with
  | nil => cases h
  | cons a t ih =>
    have hstep : setCells w (a :: t) = setCells (w.set a 1) t := rfl
    rw [hstep]
    by_cases ht : i ∈ t
    · exact ih (w.set a 1) ht (by simpa using hlen)
    · have ha : i = a := by
        rcases List.mem_cons.mp h with h1 | h2
        · exact h1
        · exact absurd h2 ht
      rw [setCells_getD_not_mem t _ i ht]
      subst ha
      simp [List.getD_eq_getElem?_getD, List.getElem?_set_self, hlen]

/-- Characterisation of the flat indices visited by the fallback loops. -/
theorem mem_fallbackCells (rows cols i : ℕ) :
    i ∈ fallbackCells rows cols ↔
      ∃ r c, rows / 3 ≤ r ∧ r < rows - rows / 3 ∧ cols / 4 ≤ c ∧
        c < cols - cols / 4 ∧ i = r * cols + c := by
  unfold fallbackCells
  simp only [List.mem_flatMap, List.mem_map, List.mem_range'_1]
  constructor
  · rintro ⟨r, ⟨hr1, hr2⟩, c, ⟨hc1, hc2⟩, rfl⟩
    exact ⟨r, c, hr1, by omega, hc1, by omega, rfl⟩
  · rintro ⟨r, c, hr1, hr2, hc1, hc2, rfl⟩
    exact ⟨r, ⟨hr1, by omega⟩, c, ⟨hc1, by omega⟩, rfl⟩

/-- Reading any index of the all-zero grid yields 0. -/
theorem replicate_zero_getD (n i : ℕ) : (List.replicate n (0 : ℕ)).getD i 0 = 0 := by
  induction n generalizing i with
  | zero => cases i <;> rfl
  | succ m ih =>
    cases i with
    | zero => simp [List.replicate_succ]
    | succ j => simp [List.replicate_succ, List.getD_cons_succ, ih]

/-- Flat grid indices determine the cell coordinates. -/
theorem flat_index_inj (cols r c r2 c2 : ℕ) (hc : c < cols) (hc2 : c2 < cols)
    (h : r * cols + c = r2 * cols + c2) : r = r2 ∧ c = c2 := by
  have hcols : 0 < cols := by omega
  have hr : r = r2 := by
    have e1 : (r * cols + c) / cols = r := by
      rw [Nat.mul_comm r cols, Nat.mul_add_div hcols, Nat.div_eq_of_lt hc]
      omega
    have e2 : (r2 * cols + c2) / cols = r2 := by
      rw [Nat.mul_comm r2 cols, Nat.mul_add_div hcols, Nat.div_eq_of_lt hc2]
      omega
    rw [← e1, ← e2, h]
  subst hr
  exact ⟨rfl, Nat.add_left_cancel h⟩

/-- Sum of a constant function over a `range'`. -/
theorem sum_map_const_range' (s n k : ℕ) :
    ((List.range' s n).map (fun _ => k)).sum = n * k := by
  induction n generalizing s with
  | zero => simp
  | succ m ih =>
    rw [List.range'_succ]
    simp [ih, Nat.succ_mul]
    omega

/-- C3 counterexample: for a 4×4 grid the fallback assigns weight 1 to the
cell `(r, c) = (1, 1)` although the claimed lower row bound
`⌈rows/3⌉ = ⌈4/3⌉ = 2` excludes it (the code loop starts at
`⌊rows/3⌋ = 1`), so the claimed cell set (row indices
`⌈rows/3⌉ .. rows − ⌊rows/3⌋`, column indices
`⌈cols/4⌉ .. cols − ⌊cols/4⌋`) is not the set of weight-1 cells. -/
theorem computeWeightsFallback_claim_counterexample :
    ¬ (∀ r c : ℕ, r < 4 → c < 4 →
        ((computeWeightsFallback 4 4).1.getD (r * 4 + c) 0 = 1 ↔
          ((4 + 2) / 3 ≤ r ∧ r ≤ 4 - 4 / 3 ∧
           (4 + 3) / 4 ≤ c ∧ c ≤ 4 - 4 / 4))) := by
  intro h
  have h11 := (h 1 1 (by decide) (by decide)).mp (by decide)
  exact absurd h11.1 (by decide)

/-- C3 (amended): the cells the central-window fallback sets to weight 1
are exactly those with row index in `[⌊rows/3⌋, rows − ⌊rows/3⌋)` and
column index in `[⌊cols/4⌋, cols − ⌊cols/4⌋)`, and the resulting sum is
the number of such cells. -/
theorem computeWeightsFallback_spec (rows cols r c : ℕ)
    (hr : r < rows) (hc : c < cols) :
    ((computeWeightsFallback rows cols).1.getD (r * cols + c) 0 = 1 ↔
      (rows / 3 ≤ r ∧ r < rows - rows / 3 ∧
       cols / 4 ≤ c ∧ c < cols - cols / 4)) ∧
    (computeWeightsFallback rows cols).2 =
      ((rows - rows / 3) - rows / 3) * ((cols - cols / 4) - cols / 4) := by
  have hlen : r * cols + c < (List.replicate (rows * cols) 0).length := by
    rw [List.length_replicate]
    calc r * cols + c < r * cols + cols := by omega
    _ = (r + 1) * cols := by ring
    _ ≤ rows * cols := Nat.mul_le_mul_right cols (by omega)
  constructor
  · constructor
    · intro h1
      by_contra hnb
      have hnm : (r * cols + c) ∉ fallbackCells rows cols := by
        intro hm
        rcases (mem_fallbackCells rows cols _).mp hm with
          ⟨r2, c2, h2, h3, h4, h5, heq⟩
        have hc2 : c2 < cols := by omega
        rcases flat_index_inj cols r c r2 c2 hc hc2 heq with ⟨rfl, rfl⟩
        exact hnb ⟨h2, h3, h4, h5⟩
      rw [show (computeWeightsFallback rows cols).1 =
            setCells (List.replicate (rows * cols) 0) (fallbackCells rows cols)
          from rfl, setCells_getD_not_mem _ _ _ hnm,
          replicate_zero_getD] at h1
      exact absurd h1 (by decide)
    · intro hb
      have hm : (r * cols + c) ∈ fallbackCells rows cols :=
        (mem_fallbackCells rows cols _).mpr
          ⟨r, c, hb.1, hb.2.1, hb.2.2.1, hb.2.2.2, rfl⟩
      exact setCells_getD_mem _ _ _ hm hlen
  · show (fallbackCells rows cols).length = _
    unfold fallbackCells
    rw [List.length_flatMap]
    have hconst : ∀ r : ℕ,
        ((List.range' (cols / 4) ((cols - cols / 4) - cols / 4)).map
          (fun c => r * cols + c)).length = (cols - cols / 4) - cols / 4 := by
      intro r
      rw [List.length_map, List.length_range']
    simp only [Function.comp_def, hconst]
    exact sum_map_const_range' _ _ _

/-- Witness for C3 (amended) on a 4×4 grid at cell (1, 1). -/
theorem computeWeightsFallback_spec_witness :
    ((computeWeightsFallback 4 4).1.getD (1 * 4 + 1) 0 = 1 ↔
      (4 / 3 ≤ 1 ∧ 1 < 4 - 4 / 3 ∧ 4 / 4 ≤ 1 ∧ 1 < 4 - 4 / 4)) ∧
    (computeWeightsFallback 4 4).2 =
      ((4 - 4 / 3) - 4 / 3) * ((4 - 4 / 4) - 4 / 4) :=
  computeWeightsFallback_spec 4 4 1 1 (by decide) (by decide)

/-! ### C9: bounds safety of the findPeak calls in doScan -/

/-- The total `findPeak` agrees with the fully bounds-checked version
whenever the primary index is in range: the padding record is never read,
because the neighbour accesses sit under the interior guard. -/
theorem findPeak_eq_checked (d : List ScanRecord) (i : ℕ) (h : i < d.length) :
    findPeak d i = findPeakChecked d i h := by
  unfold findPeak findPeakChecked
  by_cases hg : 0 < i ∧ i + 1 < d.length
  · have h1 : i - 1 < d.length := by omega
    rw [if_pos hg, dif_pos hg]
    simp only [List.getD_eq_get d recDfl h, List.getD_eq_get d recDfl h1,
      List.getD_eq_get d recDfl hg.2]
  · rw [if_neg hg, dif_neg hg, List.getD_eq_get d recDfl h]

/-- After `doScan`, either `scanData` was cleared or it is the old list
plus the freshly appended record, with `scanMaxIndex` as recomputed by the
first block of the function. -/
theorem doScan_fields (cfg : CfgParams) (contrast phase conf : ℚ) (s : Af) :
    (doScan cfg contrast phase conf s).scanData = [] ∨
    ((doScan cfg contrast phase conf s).scanData =
       s.scanData ++ [(⟨s.ftarget, contrast, phase, conf⟩ : ScanRecord)] ∧
     (doScan cfg contrast phase conf s).scanMaxIndex =
       (if s.scanData = [] ∨ s.scanMaxContrast < contrast
        then s.scanData.length else s.scanMaxIndex)) := by
  unfold doScan
  by_cases hm : s.scanData = [] ∨ s.scanMaxContrast < contrast <;>
  by_cases hcs : s.scanState = ScanState.Coarse <;>
    simp only [hm, hcs, if_true, if_false] <;> split_ifs <;> simp_all

/-- C9: assuming the entry invariant (`scanData_` empty or
`scanMaxIndex_ < scanData_.size()`), the index passed to `findPeak` at
both call sites of `Af::doScan` is strictly below the size of the
just-extended `scanData_`, and `doScan` preserves the invariant; moreover
`findPeak` reads its neighbours only under the guard
`i > 0 && i + 1 < scanData_.size()`, agreeing with the bounds-checked
version, so no access is out of range. -/
theorem doScan_findPeak_safe :
    (∀ (cfg : CfgParams) (contrast phase conf : ℚ) (s : Af),
      s.scanData = [] ∨ s.scanMaxIndex < s.scanData.length →
      ((if s.scanData = [] ∨ s.scanMaxContrast < contrast
        then s.scanData.length else s.scanMaxIndex) <
        (s.scanData ++ [(⟨s.ftarget, contrast, phase, conf⟩ : ScanRecord)]).length ∧
       ((doScan cfg contrast phase conf s).scanData = [] ∨
        (doScan cfg contrast phase conf s).scanMaxIndex <
          (doScan cfg contrast phase conf s).scanData.length))) ∧
    (∀ (d : List ScanRecord) (i : ℕ) (h : i < d.length),
      findPeak d i = findPeakChecked d i h) := by
  constructor
  · intro cfg contrast phase conf s hinv
    have hb : (if s.scanData = [] ∨ s.scanMaxContrast < contrast
        then s.scanData.length else s.scanMaxIndex) <
        (s.scanData ++ [(⟨s.ftarget, contrast, phase, conf⟩ : ScanRecord)]).length := by
      rw [List.length_append]
      split_ifs with hcase
      · simp
      · rcases hinv with he | hlt
        · exact absurd (Or.inl he) hcase
        · simp
          omega
    refine ⟨hb, ?_⟩
    rcases doScan_fields cfg contrast phase conf s with hd | ⟨hd, hmi⟩
    · exact Or.inl hd
    · exact Or.inr (by rw [hd, hmi]; exact hb)
  · exact findPeak_eq_checked

/-- Witness for C9: the first scan step from an empty `scanData_` indexes
the single appended record. -/
theorem doScan_findPeak_safe_witness :
    (if stBase.scanData = [] ∨ stBase.scanMaxContrast < (5 : ℚ)
     then stBase.scanData.length else stBase.scanMaxIndex) <
      (stBase.scanData ++ [(⟨stBase.ftarget, 5, 0, 0⟩ : ScanRecord)]).length :=
  (doScan_findPeak_safe.1 cfgDflt 5 0 0 stBase (Or.inl rfl)).1

/-! ### C4: the PDAF fusion of getPhase -/

/-- Wraparound `uint32_t` subtraction agrees with `ℕ` subtraction when it cannot
underflow. -/
theorem sub32_eq_sub (a b : ℕ) (hb : b ≤ a) (ha : a < U32) :
    sub32 a b = a - b := by
  unfold sub32 U32 at *
  omega

/-- Unfolding `specSumWc` over a qualifying head entry. -/
theorem specSumWc_cons_pos (cfg : CfgParams) (e : ℕ × PdafData)
    (l : List (ℕ × PdafData)) (h : pdafQualifies cfg e = true) :
    specSumWc cfg (e :: l) = e.1 * specC1 cfg e.2.conf + specSumWc cfg l := by
  unfold specSumWc
  rw [List.filter_cons_of_pos h]
  simp

/-- Unfolding `specSumWc` over a non-qualifying head entry. -/
theorem specSumWc_cons_neg (cfg : CfgParams) (e : ℕ × PdafData)
    (l : List (ℕ × PdafData)) (h : ¬ pdafQualifies cfg e = true) :
    specSumWc cfg (e :: l) = specSumWc cfg l := by
  unfold specSumWc
  rw [List.filter_cons_of_neg (by simpa using h)]

/-- Unfolding `specSumWcp` over a qualifying head entry. -/
theorem specSumWcp_cons_pos (cfg : CfgParams) (e : ℕ × PdafData)
    (l : List (ℕ × PdafData)) (h : pdafQualifies cfg e = true) :
    specSumWcp cfg (e :: l) =
      ((e.1 * specC2 cfg e.2.conf : ℕ) : ℤ) * e.2.phase + specSumWcp cfg l := by
  unfold specSumWcp
  rw [List.filter_cons_of_pos h]
  simp

/-- Unfolding `specSumWcp` over a non-qualifying head entry. -/
theorem specSumWcp_cons_neg (cfg : CfgParams) (e : ℕ × PdafData)
    (l : List (ℕ × PdafData)) (h : ¬ pdafQualifies cfg e = true) :
    specSumWcp cfg (e :: l) = specSumWcp cfg l := by
  unfold specSumWcp
  rw [List.filter_cons_of_neg (by simpa using h)]

/-- As long as the exact accumulated `sumWc` stays below `2 ^ 32`, the
`uint32_t` fold of `Af::getPhase` computes the exact spec sums. -/
theorem getPhase_foldl_exact (cfg : CfgParams)
    (hTC : cfg.confThresh ≤ cfg.confClip) (hClip : cfg.confClip < U32) :
    ∀ (entries : List (ℕ × PdafData)) (acc : ℕ × ℤ),
      acc.1 + specSumWc cfg entries < U32 →
      entries.foldl (getPhaseStep cfg) acc =
        (acc.1 + specSumWc cfg entries, acc.2 + specSumWcp cfg entries) := by
  intro entries
  induction entries with
  | nil =>
    intro acc hbound
    simp [specSumWc, specSumWcp]
  | cons e l ih =>
    intro acc hbound
    rw [List.foldl_cons]
    by_cases hq : pdafQualifies cfg e = true
    · obtain ⟨hw, hc⟩ : e.1 ≠ 0 ∧ cfg.confThresh ≤ e.2.conf := by
        simpa [pdafQualifies] using hq
      have hmin : (if cfg.confClip < e.2.conf then cfg.confClip else e.2.conf) =
          min e.2.conf cfg.confClip := by
        rcases le_or_lt e.2.conf cfg.confClip with hle | hlt
        · rw [if_neg (by omega), min_eq_left hle]
        · rw [if_pos hlt, min_eq_right (le_of_lt hlt)]
      have hthc0 : cfg.confThresh ≤ min e.2.conf cfg.confClip :=
        le_min hc hTC
      have hc0U : min e.2.conf cfg.confClip < U32 :=
        lt_of_le_of_lt (min_le_right _ _) hClip
      have hsub1 : sub32 (min e.2.conf cfg.confClip) (cfg.confThresh / 4) =
          specC1 cfg e.2.conf := by
        unfold specC1
        exact sub32_eq_sub _ _ (by omega) hc0U
      have hsub2 : sub32 (specC1 cfg e.2.conf) (cfg.confThresh / 4) =
          specC2 cfg e.2.conf := by
        unfold specC2
        refine sub32_eq_sub _ _ ?_ ?_
        · unfold specC1
          omega
        · unfold specC1
          omega
      have hWc := specSumWc_cons_pos cfg e l hq
      have hWcp := specSumWcp_cons_pos cfg e l hq
      have hterm : e.1 * specC1 cfg e.2.conf < U32 := by
        rw [hWc] at hbound
        omega
      have hterm2 : e.1 * specC2 cfg e.2.conf < U32 := by
        have hle : specC2 cfg e.2.conf ≤ specC1 cfg e.2.conf := by
          unfold specC2
          omega
        exact lt_of_le_of_lt (Nat.mul_le_mul_left e.1 hle) hterm
      have hstep : getPhaseStep cfg acc e =
          (acc.1 + e.1 * specC1 cfg e.2.conf,
           acc.2 + ((e.1 * specC2 cfg e.2.conf : ℕ) : ℤ) * e.2.phase) := by
        unfold getPhaseStep
        rw [if_pos hw, if_pos hc]
        simp only [hmin, hsub1, hsub2]
        rw [Nat.mod_eq_of_lt hterm, Nat.mod_eq_of_lt hterm2,
            Nat.mod_eq_of_lt (by rw [hWc] at hbound; omega)]
      rw [hstep, ih (acc.1 + e.1 * specC1 cfg e.2.conf,
            acc.2 + ((e.1 * specC2 cfg e.2.conf : ℕ) : ℤ) * e.2.phase)
            (by rw [hWc] at hbound; simpa [Nat.add_assoc] using hbound),
          hWc, hWcp]
      simp only [Prod.mk.injEq]
      constructor
      · omega
      · push_cast
        ring
    · have hstep : getPhaseStep cfg acc e = acc := by
        unfold getPhaseStep
        simp only [pdafQualifies, decide_eq_true_eq, not_and_or] at hq
        rcases hq with hw | hc
        · rw [if_neg (by simpa using hw)]
        · by_cases hw2 : e.1 ≠ 0
          · rw [if_pos hw2, if_neg hc]
          · rw [if_neg hw2]
      rw [hstep, ih acc (by rwa [specSumWc_cons_neg cfg e l hq] at hbound),
          specSumWc_cons_neg cfg e l hq, specSumWcp_cons_neg cfg e l hq]

/-- C4: `Af::getPhase` accumulates, over the cells with non-zero weight
and `conf ≥ confThresh`, the sums `sumWc = Σ w·c1` and
`sumWcp = Σ w·c2·phase` with `c1 = min(conf, confClip) − confThresh/4`
and `c2 = c1 − confThresh/4`; it returns true exactly when
`0 < gridSum ≤ sumWc`, with output `phase = sumWcp/sumWc` and
`conf = sumWc/gridSum`, and otherwise returns false with
`phase = conf = 0`. (Side conditions: `confThresh ≤ confClip`,
`confClip < 2 ^ 32`, and the exact `sumWc` below `2 ^ 32`, so the
`uint32_t` accumulator does not wrap.) -/
theorem getPhase_spec (cfg : CfgParams) (gridSum : ℕ)
    (entries : List (ℕ × PdafData))
    (hTC : cfg.confThresh ≤ cfg.confClip) (hClip : cfg.confClip < U32)
    (hSum : specSumWc cfg entries < U32) :
    getPhase cfg gridSum entries =
      if 0 < gridSum ∧ gridSum ≤ specSumWc cfg entries then
        (true, (specSumWcp cfg entries : ℚ) / (specSumWc cfg entries : ℚ),
               (specSumWc cfg entries : ℚ) / (gridSum : ℚ))
      else (false, 0, 0) := by
  unfold getPhase
  rw [getPhase_foldl_exact cfg hTC hClip entries (0, 0) (by simpa using hSum)]
  simp

/-- Witness for C4 on a three-cell grid: one qualifying cell
(`w = 1`, `conf = 20`, `phase = 100`), one zero-weight cell, one
low-confidence cell; `c1 = 16`, `c2 = 12`, `sumWc = 16`,
`sumWcp = 1200`, `gridSum = 3`. -/
theorem getPhase_spec_witness :
    getPhase cfgDflt 3 [(1, ⟨100, 20⟩), (0, ⟨7, 999⟩), (2, ⟨-50, 10⟩)] =
      (true, 75, 16 / 3) := by
  rw [getPhase_spec cfgDflt 3 _ (by decide) (by decide) (by decide)]
  have h1 : specSumWc cfgDflt [(1, ⟨100, 20⟩), (0, ⟨7, 999⟩), (2, ⟨-50, 10⟩)] = 16 := rfl
  have h2 : specSumWcp cfgDflt [(1, ⟨100, 20⟩), (0, ⟨7, 999⟩), (2, ⟨-50, 10⟩)] = 1200 := rfl
  rw [h1, h2, if_pos (by norm_num)]
  norm_num
